import Mathlib

/-!
Verification of the RD-03D radar relay (`src/RaspberryPi/Ble_gatt_server.py`).

The Python source is shallowly embedded below:
* byte buffers are `List Nat` (each element one byte),
* machine integers are `Nat`/`Int`,
* float arithmetic on the decoded values is modelled exactly over `ℚ`
  (every formula in the program stays far from the region where binary64
  rounding could flip one of its comparisons; this is noted per definition),
* the blocking `queue.Queue.put` is modelled as an `Option`-valued step
  (`none` = the call does not complete), and the GLib timeout callback
  `update_radar_data` as a pure state transformer returning the list of
  packets it published.
-/

/-! ## Constants (module header of the source) -/

def FRAME_HEADER : List Nat := [0xAA, 0xFF, 0x03, 0x00]

def FRAME_TAIL : List Nat := [0x55, 0xCC]

def FRAME_LEN : Nat := 30

def TARGETS_PER_FRAME : Nat := 3

def POSITION_SCALE : ℚ := 3

def MAX_POSITION_METERS : ℚ := 10

def OBJECT_TYPE_UNKNOWN : Nat := 0

def OBJECT_TYPE_PERSON : Nat := 1

def OBJECT_TYPE_OBJECT : Nat := 2

def OBJECT_TYPE_GHOST : Nat := 3

/-! ## `RD03DRadar._decode_signed_mag` -/

/-- `_decode_signed_mag`: `if u16 == 0: return 0`, sign flag is bit 15
(`u16 & 0x8000`), magnitude is `u16 & 0x7FFF`, positive when the flag is set. -/
def decode_signed_mag (u16v : Nat) : Int :=
  if u16v = 0 then 0
  else if u16v &&& 0x8000 ≠ 0 then ((u16v &&& 0x7FFF : Nat) : Int)
  else -((u16v &&& 0x7FFF : Nat) : Int)

/-! ## `RD03DRadar.parse_targets` -/

/-- One decoded target, the dict built by `parse_targets`. -/
structure Target where
  id : Nat
  x_mm : Int
  y_mm : Int
  r_mm : Nat
  speed_cm_s : Int
  dist_gate_mm : Nat
deriving DecidableEq

/-- `int(math.hypot(x_mm, y_mm))` on integer inputs.  CPython's `math.hypot`
is correctly rounded, and for `|x|, |y| ≤ 0x7FFF` (the range produced by
`_decode_signed_mag`) the exact value `√(x² + y²)` is either an integer
(then the float is exact) or at distance `≥ 1/(2·√(x²+y²)) ≫ ulp` from every
integer, so truncating the float equals the integer floor square root. -/
def int_hypot (x y : Int) : Nat := Nat.sqrt (x.natAbs ^ 2 + y.natAbs ^ 2)

/-- `struct.unpack_from("<HHHH", ...)`: one little-endian 16-bit field. -/
def u16le (lo hi : Nat) : Nat := lo + 256 * hi

/-- `frame[offset : offset + 8]` for slot `k` (`offset = 4 + 8 * k`). -/
def slot_bytes (frame : List Nat) (k : Nat) : List Nat :=
  (frame.drop (4 + 8 * k)).take 8

/-- One iteration of the `parse_targets` loop: `none` when the 8-byte segment
is all zeroes (slot skipped), otherwise the decoded target dict. -/
def parse_slot (frame : List Nat) (k : Nat) : Option Target :=
  let seg := slot_bytes frame k
  if seg = List.replicate 8 0 then none
  else
    let x_raw := u16le (seg.getD 0 0) (seg.getD 1 0)
    let y_raw := u16le (seg.getD 2 0) (seg.getD 3 0)
    let v_raw := u16le (seg.getD 4 0) (seg.getD 5 0)
    let d_raw := u16le (seg.getD 6 0) (seg.getD 7 0)
    let xv := decode_signed_mag x_raw
    let yv := decode_signed_mag y_raw
    some { id := k + 1
           x_mm := xv
           y_mm := yv
           r_mm := int_hypot xv yv
           speed_cm_s := decode_signed_mag v_raw
           dist_gate_mm := d_raw }

/-- `parse_targets`: the three slots in order, skipped slots dropped. -/
def parse_targets (frame : List Nat) : List Target :=
  (parse_slot frame 0).toList ++ (parse_slot frame 1).toList ++
    (parse_slot frame 2).toList

/-! ## `RD03DRadar._extract_frame_from_buffer` -/

/-- A full header occurrence at position `i` of the buffer. -/
def isHeaderAt (buf : List Nat) (i : Nat) : Prop :=
  (buf.drop i).take 4 = FRAME_HEADER

instance (buf : List Nat) (i : Nat) : Decidable (isHeaderAt buf i) := by
  unfold isHeaderAt; infer_instance

/-- `bytearray.find(FRAME_HEADER)`: index of the first header occurrence
(`none` for Python's `-1`). -/
def find_header : List Nat → Option Nat
  | [] => none
  | b :: rest =>
    if (b :: rest).take 4 = FRAME_HEADER then some 0
    else (find_header rest).map (· + 1)

/-- `_extract_frame_from_buffer`: scan for the header; with no header retain
only the last 3 bytes (when more than 3 are buffered); with fewer than 30
bytes from the header keep everything and wait; otherwise consume the 30-byte
window, emit it when the last two bytes are the tail, else loop on the rest.
Returns (new buffer, emitted frame). -/
def extract_frame_from_buffer (buf : List Nat) : List Nat × Option (List Nat) :=
  match find_header buf with
  | none => (if 3 < buf.length then buf.drop (buf.length - 3) else buf, none)
  | some idx =>
    if h30 : buf.length - idx < FRAME_LEN then (buf, none)
    else if ((buf.drop idx).take FRAME_LEN).drop (FRAME_LEN - 2) = FRAME_TAIL then
      (buf.drop (idx + FRAME_LEN), some ((buf.drop idx).take FRAME_LEN))
    else extract_frame_from_buffer (buf.drop (idx + FRAME_LEN))
termination_by buf.length
decreasing_by simp only [List.length_drop]; unfold FRAME_LEN at h30 ⊢; omega

/-- Repeated extraction until `_extract_frame_from_buffer` returns `None`:
the frames one call of the spec's `feed` yields once enough bytes are
buffered.  Written with the while-loop of `_extract_frame_from_buffer`
inlined (tail-mismatch continues, an emitted frame is collected and the
scan restarts on the remaining buffer); `extract_all_unfolds` below proves
this agrees with iterating `extract_frame_from_buffer`. -/
def extract_all (buf : List Nat) : List Nat × List (List Nat) :=
  match find_header buf with
  | none => (if 3 < buf.length then buf.drop (buf.length - 3) else buf, [])
  | some idx =>
    if h30 : buf.length - idx < FRAME_LEN then (buf, [])
    else
      let p := extract_all (buf.drop (idx + FRAME_LEN))
      if ((buf.drop idx).take FRAME_LEN).drop (FRAME_LEN - 2) = FRAME_TAIL then
        (p.1, (buf.drop idx).take FRAME_LEN :: p.2)
      else p
termination_by buf.length
decreasing_by simp only [List.length_drop]; unfold FRAME_LEN at h30 ⊢; omega

/-- `read_frame` after a successful `serial.read(64)` returning `chunk`:
extend the buffer, run one extraction.  (The serial timeout only bounds the
chunk at 64 bytes; I/O errors leave the buffer untouched.) -/
def read_frame_step (buf chunk : List Nat) : List Nat × Option (List Nat) :=
  extract_frame_from_buffer (buf ++ chunk)

/-- The reader loop's buffer after a sequence of `read_frame` calls with the
given chunks. -/
def read_run : List Nat → List (List Nat) → List Nat
  | buf, [] => buf
  | buf, c :: cs => read_run (read_frame_step buf c).1 cs

/-- Feeding one chunk with drain-until-none extraction. -/
def feed_bytes (buf chunk : List Nat) : List Nat × List (List Nat) :=
  extract_all (buf ++ chunk)

/-- Feeding a list of chunks, collecting every emitted frame in order. -/
def run_chunks : List Nat → List (List Nat) → List Nat × List (List Nat)
  | buf, [] => (buf, [])
  | buf, c :: cs =>
    let p := feed_bytes buf c
    let q := run_chunks p.1 cs
    (q.1, p.2 ++ q.2)

/-! ## `RadarDataCharacteristic.classify_target` -/

/-- `classify_target`: the four-way cascade on `r_m = r_mm / 1000.0` and
`speed_m_s = abs(speed_cm_s) / 100.0`.  The divisions and comparison bounds
(`0.5`, `8.0`, `4.0`, `0.05`) are all computed exactly here; in binary64 the
compared quantities are correctly rounded images of values that are never
within one ulp of each other unless exactly equal, so the branch taken is
the same. -/
def classify_target (t : Target) : Nat × ℚ :=
  let speed_m_s : ℚ := ((|t.speed_cm_s| : Int) : ℚ) / 100
  let r_m : ℚ := (t.r_mm : ℚ) / 1000
  if r_m < 0.5 ∨ r_m > 8.0 then (OBJECT_TYPE_GHOST, 0.2)
  else if speed_m_s > 4.0 then (OBJECT_TYPE_GHOST, 0.3)
  else if speed_m_s < 0.05 then (OBJECT_TYPE_OBJECT, 0.8)
  else (OBJECT_TYPE_PERSON, 0.85)

/-- The decision rule exactly as the specification words it (rule list with
first match winning, `range_m` and `speed_m_s` derived fields, absolute
value taken at the comparisons). -/
def classify_rule_list (t : Target) : Nat × ℚ :=
  let range_m : ℚ := (t.r_mm : ℚ) / 1000
  let speed_m_s : ℚ := ((t.speed_cm_s : Int) : ℚ) / 100
  if range_m < 0.5 ∨ range_m > 8.0 then (OBJECT_TYPE_GHOST, 0.2)
  else if |speed_m_s| > 4.0 then (OBJECT_TYPE_GHOST, 0.3)
  else if |speed_m_s| < 0.05 then (OBJECT_TYPE_OBJECT, 0.8)
  else (OBJECT_TYPE_PERSON, 0.85)

/-! ## `RadarDataCharacteristic.pack_radar_data` -/

/-- The six values computed by `pack_radar_data` before `struct.pack`:
visualised x/y (scaled by `POSITION_SCALE`, clamped to
`±MAX_POSITION_METERS`), true depth, synthetic SNR (if-chain clamp to
`[5, 35]`), confidence (if-chain clamp to `[0, 1]`), and the classifier's
object type masked to one byte. -/
structure OutboundFields where
  vis_x : ℚ
  vis_y : ℚ
  depth_m : ℚ
  snr_db : ℚ
  confidence : ℚ
  object_type_byte : Nat
deriving DecidableEq

def pack_fields (t : Target) : OutboundFields :=
  let x_m : ℚ := (t.x_mm : ℚ) / 1000
  let y_m : ℚ := (t.y_mm : ℚ) / 1000
  let depth_m : ℚ := (t.r_mm : ℚ) / 1000
  let vis_x0 := x_m * POSITION_SCALE
  let vis_y0 := y_m * POSITION_SCALE
  let vis_x := max (-MAX_POSITION_METERS) (min MAX_POSITION_METERS vis_x0)
  let vis_y := max (-MAX_POSITION_METERS) (min MAX_POSITION_METERS vis_y0)
  let snr0 : ℚ := 40 - depth_m * 5
  let snr_db := if snr0 < 5 then (5 : ℚ) else if snr0 > 35 then 35 else snr0
  let conf0 := (snr_db - 5) / 30
  let confidence := if conf0 < 0 then (0 : ℚ) else if conf0 > 1 then 1 else conf0
  { vis_x := vis_x
    vis_y := vis_y
    depth_m := depth_m
    snr_db := snr_db
    confidence := confidence
    object_type_byte := (classify_target t).1 &&& 0xFF }

/-- IEEE-754 binary32 bit pattern (sign ≪ 31, biased exponent ≪ 23,
mantissa) of a rational, rounding to nearest with ties to even, with
subnormal and overflow-to-infinity handling: the value `struct.pack('<f')`
stores. -/
def f32bits (q : ℚ) : Nat :=
  if q = 0 then 0
  else
    let s : Nat := if q < 0 then 1 else 0
    let a : ℚ := |q|
    let e : Int := Int.log 2 a
    if 127 < e then s * 2 ^ 31 + 255 * 2 ^ 23
    else
      let e1 : Int := max e (-126)
      let scaled : ℚ := a * (2 : ℚ) ^ (23 - e1)
      let n : Int := ⌊scaled⌋
      let r : ℚ := scaled - (n : ℚ)
      let m : Int :=
        if 1 / 2 < r then n + 1
        else if r < 1 / 2 then n
        else if n % 2 = 0 then n else n + 1
      if m = 2 ^ 24 then
        if 127 < e1 + 1 then s * 2 ^ 31 + 255 * 2 ^ 23
        else s * 2 ^ 31 + (e1 + 1 + 127).toNat * 2 ^ 23
      else if m < 2 ^ 23 then s * 2 ^ 31 + m.toNat
      else s * 2 ^ 31 + (e1 + 127).toNat * 2 ^ 23 + (m.toNat - 2 ^ 23)

/-- The four bytes of one `<f` field, little-endian. -/
def f32le (q : ℚ) : List Nat :=
  [f32bits q % 256, f32bits q / 256 % 256,
   f32bits q / 65536 % 256, f32bits q / 16777216 % 256]

/-- `pack_radar_data`: `struct.pack('<fffffB', vis_x, vis_y, depth, snr,
confidence, object_type_byte)` — five little-endian binary32 fields then
one byte, no padding. -/
def pack_radar_data (t : Target) : List Nat :=
  let f := pack_fields t
  f32le f.vis_x ++ f32le f.vis_y ++ f32le f.depth_m ++ f32le f.snr_db ++
    f32le f.confidence ++ [f.object_type_byte]

/-! ## The relay queue (`queue.Queue(maxsize=10)`) and the reader loop -/

def QUEUE_MAXSIZE : Nat := 10

/-- `queue.Queue.put(item)` with `block=True` (the default used at
`data_queue.put(targets)`): the call completes, appending at the tail, only
while fewer than `maxsize` items are queued; on a full queue the caller
blocks (`none` — no state change ever happens). -/
def queue_put (q : List (List Target)) (batch : List Target) :
    Option (List (List Target)) :=
  if q.length < QUEUE_MAXSIZE then some (q ++ [batch]) else none

/-- The body of `radar_reader_thread` after `parse_targets`: enqueue only
non-empty batches. -/
def reader_enqueue (q : List (List Target)) (ts : List Target) :
    Option (List (List Target)) :=
  if ts = [] then some q else queue_put q ts

/-! ## `RadarDataCharacteristic` state and `update_radar_data` -/

/-- The characteristic state the relay logic touches: the BlueZ `notifying`
flag, the queue reference (`None` before `set_radar_queue`, modelled with the
queued batches inline), and the stored `value`. -/
structure RadarDataChar where
  notifying : Bool
  radar_queue : Option (List (List Target))
  value : List Nat
deriving DecidableEq

/-- `StartNotify`: no-op when already notifying, else set the flag. -/
def start_notify (s : RadarDataChar) : RadarDataChar :=
  if s.notifying then s else { s with notifying := true }

/-- `StopNotify`: no-op when not notifying, else clear the flag. -/
def stop_notify (s : RadarDataChar) : RadarDataChar :=
  if s.notifying then { s with notifying := false } else s

/-- `update_value`: store the value; emit a `PropertiesChanged` notification
(the published packet) only while notifying. -/
def update_value (s : RadarDataChar) (v : List Nat) :
    RadarDataChar × List (List Nat) :=
  ({ s with value := v }, if s.notifying then [v] else [])

/-- `sorted(targets, key=lambda t: t["r_mm"])[0]` as an `Option`: Python's
sort is stable, so index 0 is the first element attaining the minimal
`r_mm`, which this fold keeps (later elements replace only on strictly
smaller key). -/
def select_closest (ts : List Target) : Option Target :=
  ts.foldl
    (fun acc t =>
      match acc with
      | none => some t
      | some a => if t.r_mm < a.r_mm then some t else some a)
    none

/-- One `update_radar_data` tick: bail out while not notifying or with no
queue attached; otherwise drain the queue keeping only the last batch, and
for a non-empty drained batch publish the packet of the closest target via
`update_value`.  Returns the new state and the packets published this
tick. -/
def update_radar_data (s : RadarDataChar) : RadarDataChar × List (List Nat) :=
  match s.radar_queue with
  | none => (s, [])
  | some q =>
    if s.notifying = false then (s, [])
    else
      let s1 := { s with radar_queue := some [] }
      match q.getLast? with
      | none => (s1, [])
      | some ts =>
        if ts = [] then (s1, [])
        else
          match select_closest ts with
          | none => (s1, [])
          | some t => update_value s1 (pack_radar_data t)

/-! ## Specification-side helpers -/

/-- `clamp(x, lo, hi)` as the specification words it. -/
def clampQ (lo hi x : ℚ) : ℚ := max lo (min hi x)

/-- The nearest integer to `√n` (`round(sqrt(n))` of the claim):
`⌊√n + 1/2⌋ = ⌊(⌊√(4n)⌋ + 1) / 2⌋`; a tie `√n = k + 1/2` would force the odd
square `(2k+1)²` to equal the even number `4n`, so ties never occur. -/
def round_sqrt (n : Nat) : Nat := (Nat.sqrt (4 * n) + 1) / 2

/-- Shape invariant of the reader buffer under drain-until-none feeding:
nearly empty, or a first header within the first 64 bytes and at most 29
bytes pending after it. -/
def BufInv (b : List Nat) : Prop :=
  b.length ≤ 3 ∨
    ∃ i, find_header b = some i ∧ b.length ≤ i + 29 ∧ i ≤ 63

/-- A well-formed frame whose slots are empty: header, 24 zero bytes, tail. -/
def goodF : List Nat := FRAME_HEADER ++ List.replicate 24 0 ++ FRAME_TAIL

/-- `n` back-to-back well-formed frames. -/
def frames_concat (n : Nat) : List Nat := (List.replicate n goodF).flatten

/-- Claim C9 as stated: some constant bounds the buffer after every
`read_frame` call, for every chunk sequence of at most 64 bytes each. -/
def read_frame_buffer_bounded_claim : Prop :=
  ∃ N, ∀ chunks : List (List Nat),
    (∀ c ∈ chunks, c.length ≤ 64) →
    ∀ n, (read_run [] (chunks.take n)).length ≤ N

/-- Claim C1 as stated: on a full queue the reader's enqueue of a non-empty
batch still completes, evicting a pending batch, and the newest batch is
retrievable afterwards. -/
def full_queue_eviction_claim : Prop :=
  ∀ (q : List (List Target)) (ts : List Target),
    q.length = QUEUE_MAXSIZE → ts ≠ [] →
    ∃ q1, reader_enqueue q ts = some q1 ∧ q1.getLast? = some ts

/-- The frame of claim C2's counterexample: slot 1 decodes to
`x_mm = 2, y_mm = 2` (raw `0x8002`), slots 2 and 3 empty. -/
def frame_x2_y2 : List Nat :=
  FRAME_HEADER ++ [0x02, 0x80, 0x02, 0x80, 0, 0, 0, 0] ++
    List.replicate 8 0 ++ List.replicate 8 0 ++ FRAME_TAIL

/-! # Theorems

## Header search -/

theorem isHeaderAt_length {buf : List Nat} {i : Nat} (h : isHeaderAt buf i) :
    i + 4 ≤ buf.length := by
  unfold isHeaderAt FRAME_HEADER at h
  have hl := congrArg List.length h
  simp only [List.length_take, List.length_drop, List.length_cons,
    List.length_nil] at hl
  omega

theorem isHeaderAt_nil (i : Nat) : ¬ isHeaderAt [] i := by
  intro h
  have := isHeaderAt_length h
  simp at this

theorem isHeaderAt_cons_succ (b : Nat) (l : List Nat) (i : Nat) :
    isHeaderAt (b :: l) (i + 1) ↔ isHeaderAt l i := Iff.rfl

theorem isHeaderAt_zero (buf : List Nat) :
    isHeaderAt buf 0 ↔ buf.take 4 = FRAME_HEADER := by
  unfold isHeaderAt
  rw [List.drop_zero]

theorem find_header_eq_some_iff :
    ∀ (buf : List Nat) (i : Nat),
      find_header buf = some i ↔
        isHeaderAt buf i ∧ ∀ j, j < i → ¬ isHeaderAt buf j := by
  intro buf
  induction buf with
  | nil =>
    intro i
    simp only [find_header]
    constructor
    · intro h; exact absurd h (by simp)
    · rintro ⟨h, -⟩; exact absurd h (isHeaderAt_nil i)
  | cons b l ih =>
    intro i
    by_cases h4 : (b :: l).take 4 = FRAME_HEADER
    · rw [find_header, if_pos h4]
      constructor
      · intro h
        obtain rfl : i = 0 := by cases h; rfl
        exact ⟨(isHeaderAt_zero (b :: l)).2 h4,
          fun j hj => absurd hj (Nat.not_lt_zero j)⟩
      · rintro ⟨hi, hmin⟩
        rcases Nat.eq_zero_or_pos i with rfl | h0
        · rfl
        · exact absurd ((isHeaderAt_zero (b :: l)).2 h4) (hmin 0 h0)
    · rw [find_header, if_neg h4]
      constructor
      · intro h
        rcases Option.map_eq_some'.1 h with ⟨i0, hfind, rfl⟩
        obtain ⟨hhead, hmin⟩ := (ih i0).1 hfind
        refine ⟨(isHeaderAt_cons_succ b l i0).2 hhead, ?_⟩
        intro j hj
        cases j with
        | zero => exact fun hc => h4 ((isHeaderAt_zero (b :: l)).1 hc)
        | succ j0 =>
          intro hc
          exact hmin j0 (by omega) ((isHeaderAt_cons_succ b l j0).1 hc)
      · rintro ⟨hhead, hmin⟩
        cases i with
        | zero => exact absurd ((isHeaderAt_zero (b :: l)).1 hhead) h4
        | succ i0 =>
          have hfind : find_header l = some i0 := by
            refine (ih i0).2 ⟨(isHeaderAt_cons_succ b l i0).1 hhead, ?_⟩
            intro j hj hc
            exact hmin (j + 1) (by omega) ((isHeaderAt_cons_succ b l j).2 hc)
          rw [hfind, Option.map_some']

theorem find_header_eq_none_iff :
    ∀ buf : List Nat, find_header buf = none ↔ ∀ j, ¬ isHeaderAt buf j := by
  intro buf
  induction buf with
  | nil =>
    simp only [find_header, true_iff]
    exact isHeaderAt_nil
  | cons b l ih =>
    by_cases h4 : (b :: l).take 4 = FRAME_HEADER
    · rw [find_header, if_pos h4]
      constructor
      · intro h; exact absurd h (by simp)
      · intro h
        exact absurd ((isHeaderAt_zero (b :: l)).2 h4) (h 0)
    · rw [find_header, if_neg h4, Option.map_eq_none', ih]
      constructor
      · intro h j
        cases j with
        | zero => exact fun hc => h4 ((isHeaderAt_zero (b :: l)).1 hc)
        | succ j0 => exact fun hc => h j0 ((isHeaderAt_cons_succ b l j0).1 hc)
      · intro h j hc
        exact h (j + 1) ((isHeaderAt_cons_succ b l j).2 hc)

theorem find_header_some_isHeader {buf : List Nat} {i : Nat}
    (h : find_header buf = some i) : isHeaderAt buf i :=
  ((find_header_eq_some_iff buf i).1 h).1

theorem find_header_some_length {buf : List Nat} {i : Nat}
    (h : find_header buf = some i) : i + 4 ≤ buf.length :=
  isHeaderAt_length (find_header_some_isHeader h)

theorem find_header_of_short {buf : List Nat} (h : buf.length < 4) :
    find_header buf = none := by
  rw [find_header_eq_none_iff]
  intro j hj
  have := isHeaderAt_length hj
  omega

theorem take4_drop_append {buf : List Nat} (c : List Nat) {i : Nat}
    (h : i + 4 ≤ buf.length) :
    ((buf ++ c).drop i).take 4 = (buf.drop i).take 4 := by
  rw [List.drop_append_eq_append_drop]
  rw [List.take_append_of_le_length]
  simp only [List.length_drop]
  omega

theorem isHeaderAt_append_left {buf : List Nat} {i : Nat} (c : List Nat)
    (h : isHeaderAt buf i) : isHeaderAt (buf ++ c) i := by
  unfold isHeaderAt at h ⊢
  rw [take4_drop_append c (isHeaderAt_length h)]
  exact h

theorem isHeaderAt_append_of_le {buf c : List Nat} {i : Nat}
    (hlen : i + 4 ≤ buf.length) (h : isHeaderAt (buf ++ c) i) :
    isHeaderAt buf i := by
  unfold isHeaderAt at h ⊢
  rw [take4_drop_append c hlen] at h
  exact h

theorem isHeaderAt_shift (a s : List Nat) (i : Nat) :
    isHeaderAt (a ++ s) (a.length + i) ↔ isHeaderAt s i := by
  unfold isHeaderAt
  rw [List.drop_append_eq_append_drop, List.drop_eq_nil_of_le (by omega),
    List.nil_append, Nat.add_sub_cancel_left]

theorem find_header_append_of_some {buf : List Nat} {i : Nat} (c : List Nat)
    (h : find_header buf = some i) : find_header (buf ++ c) = some i := by
  obtain ⟨hhead, hmin⟩ := (find_header_eq_some_iff buf i).1 h
  have hlen := isHeaderAt_length hhead
  rw [find_header_eq_some_iff]
  refine ⟨isHeaderAt_append_left c hhead, ?_⟩
  intro j hj hc
  have hj4 : j + 4 ≤ buf.length := by omega
  exact hmin j hj (isHeaderAt_append_of_le hj4 hc)

theorem find_header_none_append {buf c : List Nat} {j : Nat}
    (h : find_header buf = none) (hc : isHeaderAt (buf ++ c) j) :
    buf.length ≤ j + 3 := by
  by_contra hlt
  have hj4 : j + 4 ≤ buf.length := by omega
  exact (find_header_eq_none_iff buf).1 h j (isHeaderAt_append_of_le hj4 hc)

/-! ## Case equations for the extractors -/

theorem extract_frame_none {buf : List Nat} (h : find_header buf = none) :
    extract_frame_from_buffer buf =
      (if 3 < buf.length then buf.drop (buf.length - 3) else buf, none) := by
  rw [extract_frame_from_buffer.eq_def, h]

theorem extract_frame_incomplete {buf : List Nat} {idx : Nat}
    (h : find_header buf = some idx) (h30 : buf.length - idx < FRAME_LEN) :
    extract_frame_from_buffer buf = (buf, none) := by
  rw [extract_frame_from_buffer.eq_def, h]
  dsimp only
  rw [dif_pos h30]

theorem extract_frame_complete_ok {buf : List Nat} {idx : Nat}
    (h : find_header buf = some idx) (h30 : ¬ buf.length - idx < FRAME_LEN)
    (ht : ((buf.drop idx).take FRAME_LEN).drop (FRAME_LEN - 2) = FRAME_TAIL) :
    extract_frame_from_buffer buf =
      (buf.drop (idx + FRAME_LEN), some ((buf.drop idx).take FRAME_LEN)) := by
  rw [extract_frame_from_buffer.eq_def, h]
  dsimp only
  rw [dif_neg h30, if_pos ht]

theorem extract_frame_complete_bad {buf : List Nat} {idx : Nat}
    (h : find_header buf = some idx) (h30 : ¬ buf.length - idx < FRAME_LEN)
    (ht : ¬ ((buf.drop idx).take FRAME_LEN).drop (FRAME_LEN - 2) = FRAME_TAIL) :
    extract_frame_from_buffer buf =
      extract_frame_from_buffer (buf.drop (idx + FRAME_LEN)) := by
  rw [extract_frame_from_buffer.eq_def, h]
  dsimp only
  rw [dif_neg h30, if_neg ht]

theorem extract_all_none {buf : List Nat} (h : find_header buf = none) :
    extract_all buf =
      (if 3 < buf.length then buf.drop (buf.length - 3) else buf, []) := by
  rw [extract_all.eq_def, h]

theorem extract_all_incomplete {buf : List Nat} {idx : Nat}
    (h : find_header buf = some idx) (h30 : buf.length - idx < FRAME_LEN) :
    extract_all buf = (buf, []) := by
  rw [extract_all.eq_def, h]
  dsimp only
  rw [dif_pos h30]

theorem extract_all_complete_ok {buf : List Nat} {idx : Nat}
    (h : find_header buf = some idx) (h30 : ¬ buf.length - idx < FRAME_LEN)
    (ht : ((buf.drop idx).take FRAME_LEN).drop (FRAME_LEN - 2) = FRAME_TAIL) :
    extract_all buf =
      ((extract_all (buf.drop (idx + FRAME_LEN))).1,
        (buf.drop idx).take FRAME_LEN ::
          (extract_all (buf.drop (idx + FRAME_LEN))).2) := by
  rw [extract_all.eq_def, h]
  dsimp only
  rw [dif_neg h30, if_pos ht]

theorem extract_all_complete_bad {buf : List Nat} {idx : Nat}
    (h : find_header buf = some idx) (h30 : ¬ buf.length - idx < FRAME_LEN)
    (ht : ¬ ((buf.drop idx).take FRAME_LEN).drop (FRAME_LEN - 2) = FRAME_TAIL) :
    extract_all buf = extract_all (buf.drop (idx + FRAME_LEN)) := by
  rw [extract_all.eq_def, h]
  dsimp only
  rw [dif_neg h30, if_neg ht]

theorem extract_all_nil : extract_all [] = ([], []) := by
  rw [extract_all_none (by simp [find_header])]
  simp

/-! ## Chunking invariance of the synchronizer (claim C3) -/

/-- Bytes in front of every header occurrence are inert: they never affect
the emitted frames. -/
theorem extract_all_drop_junk :
    ∀ (a s : List Nat),
      (∀ i, isHeaderAt (a ++ s) i → a.length ≤ i) →
      (extract_all (a ++ s)).2 = (extract_all s).2 := by
  intro a s hjunk
  have hdrop : ∀ n, a.length ≤ n → (a ++ s).drop n = s.drop (n - a.length) := by
    intro n hn
    rw [List.drop_append_eq_append_drop, List.drop_eq_nil_of_le hn,
      List.nil_append]
  cases hfs : find_header (a ++ s) with
  | none =>
    have hs : find_header s = none := by
      rw [find_header_eq_none_iff]
      intro j hj
      exact (find_header_eq_none_iff _).1 hfs (a.length + j)
        ((isHeaderAt_shift a s j).2 hj)
    rw [extract_all_none hfs, extract_all_none hs]
  | some i =>
    have hha : isHeaderAt (a ++ s) i := find_header_some_isHeader hfs
    have hai : a.length ≤ i := hjunk i hha
    have hs : find_header s = some (i - a.length) := by
      rw [find_header_eq_some_iff]
      constructor
      · have heq : a.length + (i - a.length) = i := by omega
        refine (isHeaderAt_shift a s (i - a.length)).1 ?_
        rwa [heq]
      · intro j hj hcs
        exact ((find_header_eq_some_iff _ i).1 hfs).2 (a.length + j) (by omega)
          ((isHeaderAt_shift a s j).2 hcs)
    have hlen : (a ++ s).length - i = s.length - (i - a.length) := by
      rw [List.length_append]; omega
    by_cases h30 : (a ++ s).length - i < FRAME_LEN
    · rw [extract_all_incomplete hfs h30,
        extract_all_incomplete hs (by omega)]
    · have h30s : ¬ s.length - (i - a.length) < FRAME_LEN := by omega
      have hwin : (a ++ s).drop i = s.drop (i - a.length) := hdrop i hai
      have hrest : (a ++ s).drop (i + FRAME_LEN) =
          s.drop (i - a.length + FRAME_LEN) := by
        rw [hdrop (i + FRAME_LEN) (by omega)]
        congr 1
        omega
      by_cases ht :
          (((a ++ s).drop i).take FRAME_LEN).drop (FRAME_LEN - 2) = FRAME_TAIL
      · rw [extract_all_complete_ok hfs h30 ht,
          extract_all_complete_ok hs h30s (by rw [← hwin]; exact ht),
          hwin, hrest]
      · rw [extract_all_complete_bad hfs h30 ht,
          extract_all_complete_bad hs h30s (by rw [← hwin]; exact ht), hrest]

/-- Appending more bytes first replays the frames the old buffer already
had and then behaves as feeding the new bytes to the drained state. -/
theorem extract_all_append_frames :
    ∀ (n : Nat) (b : List Nat), b.length ≤ n → ∀ c : List Nat,
      (extract_all (b ++ c)).2 =
        (extract_all b).2 ++ (extract_all ((extract_all b).1 ++ c)).2 := by
  intro n
  induction n with
  | zero =>
    intro b hb c
    have hbnil : b = [] := List.length_eq_zero.1 (by omega)
    subst hbnil
    rw [extract_all_nil]
    simp
  | succ n ih =>
    intro b hb c
    cases hfb : find_header b with
    | none =>
      by_cases hlen : 3 < b.length
      · rw [extract_all_none hfb, if_pos hlen]
        have hsplit : b ++ c =
            b.take (b.length - 3) ++ (b.drop (b.length - 3) ++ c) := by
          rw [← List.append_assoc, List.take_append_drop]
        rw [hsplit, extract_all_drop_junk _ _ ?_]
        · simp
        · intro i hi
          rw [← List.append_assoc, List.take_append_drop] at hi
          have := find_header_none_append hfb hi
          rw [List.length_take]
          omega
      · rw [extract_all_none hfb, if_neg hlen]
        simp
    | some idx =>
      have hidx4 : idx + 4 ≤ b.length := find_header_some_length hfb
      by_cases h30 : b.length - idx < FRAME_LEN
      · rw [extract_all_incomplete hfb h30]
        simp
      · have hfbc : find_header (b ++ c) = some idx :=
          find_header_append_of_some c hfb
        have h30c : ¬ (b ++ c).length - idx < FRAME_LEN := by
          rw [List.length_append]
          unfold FRAME_LEN at h30 ⊢
          omega
        have hdropc : (b ++ c).drop idx = b.drop idx ++ c :=
          List.drop_append_of_le_length (by omega)
        have hwin : ((b ++ c).drop idx).take FRAME_LEN =
            (b.drop idx).take FRAME_LEN := by
          rw [hdropc, List.take_append_of_le_length]
          simp only [List.length_drop]
          omega
        have hrestc : (b ++ c).drop (idx + FRAME_LEN) =
            b.drop (idx + FRAME_LEN) ++ c :=
          List.drop_append_of_le_length (by omega)
        have hlrest : (b.drop (idx + FRAME_LEN)).length ≤ n := by
          simp only [List.length_drop]
          unfold FRAME_LEN at h30 ⊢
          omega
        by_cases ht :
            ((b.drop idx).take FRAME_LEN).drop (FRAME_LEN - 2) = FRAME_TAIL
        · rw [extract_all_complete_ok hfbc h30c (by rw [hwin]; exact ht),
            extract_all_complete_ok hfb h30 ht, hwin, hrestc]
          simp only [List.cons_append]
          rw [ih _ hlrest c]
        · rw [extract_all_complete_bad hfbc h30c (by rw [hwin]; exact ht),
            extract_all_complete_bad hfb h30 ht, hrestc]
          exact ih _ hlrest c

theorem extract_all_append (b c : List Nat) :
    (extract_all (b ++ c)).2 =
      (extract_all b).2 ++ (extract_all ((extract_all b).1 ++ c)).2 :=
  extract_all_append_frames b.length b le_rfl c

/-- The buffer left behind by a drain is itself drained: extracting again
yields nothing and keeps the buffer. -/
theorem extract_all_state_fix :
    ∀ (n : Nat) (b : List Nat), b.length ≤ n →
      extract_all ((extract_all b).1) = ((extract_all b).1, []) := by
  intro n
  induction n with
  | zero =>
    intro b hb
    have hbnil : b = [] := List.length_eq_zero.1 (by omega)
    subst hbnil
    rw [extract_all_nil, extract_all_nil]
  | succ n ih =>
    intro b hb
    cases hfb : find_header b with
    | none =>
      by_cases hlen : 3 < b.length
      · rw [extract_all_none hfb, if_pos hlen]
        dsimp only
        have h3 : (b.drop (b.length - 3)).length = 3 := by
          simp only [List.length_drop]
          omega
        rw [extract_all_none (find_header_of_short (by omega)), h3]
        simp
      · rw [extract_all_none hfb, if_neg hlen]
        dsimp only
        rw [extract_all_none hfb, if_neg hlen]
    | some idx =>
      by_cases h30 : b.length - idx < FRAME_LEN
      · rw [extract_all_incomplete hfb h30]
        dsimp only
        rw [extract_all_incomplete hfb h30]
      · have hlrest : (b.drop (idx + FRAME_LEN)).length ≤ n := by
          have hidx4 : idx + 4 ≤ b.length := find_header_some_length hfb
          simp only [List.length_drop]
          unfold FRAME_LEN at h30 ⊢
          omega
        by_cases ht :
            ((b.drop idx).take FRAME_LEN).drop (FRAME_LEN - 2) = FRAME_TAIL
        · rw [extract_all_complete_ok hfb h30 ht]
          dsimp only
          exact ih _ hlrest
        · rw [extract_all_complete_bad hfb h30 ht]
          exact ih _ hlrest

/-- Chunked feeding of a drained buffer emits the same frames as feeding
the concatenation at once. -/
theorem run_chunks_join :
    ∀ (chunks : List (List Nat)) (b : List Nat),
      extract_all b = (b, []) →
      (run_chunks b chunks).2 = (extract_all (b ++ chunks.flatten)).2 := by
  intro chunks
  induction chunks with
  | nil =>
    intro b hb
    simp only [run_chunks, List.flatten_nil, List.append_nil, hb]
  | cons c cs ih =>
    intro b hb
    simp only [run_chunks, feed_bytes, List.flatten_cons]
    rw [ih _ (extract_all_state_fix _ _ le_rfl)]
    rw [← List.append_assoc, extract_all_append (b ++ c) cs.flatten]

theorem flatten_map_singleton :
    ∀ s : List Nat, (s.map (fun b => [b])).flatten = s := by
  intro s
  induction s with
  | nil => rfl
  | cons b l ih => simp only [List.map_cons, List.flatten_cons, ih]; rfl

/-- C3 (confirmed). For every finite byte stream, feeding it to the frame
synchronizer one byte at a time produces exactly the same sequence of
emitted 30-byte raw frames, in the same order, as feeding the whole stream
in a single call: the buffer/scan/consume algorithm of
`_extract_frame_from_buffer` is chunking-invariant. -/
theorem frame_sync_chunking_invariance (s : List Nat) :
    (run_chunks [] (s.map (fun b => [b]))).2 = (extract_all s).2 := by
  rw [run_chunks_join (s.map (fun b => [b])) [] extract_all_nil,
    List.nil_append, flatten_map_singleton]

/-! ## `extract_all` agrees with iterating `_extract_frame_from_buffer` -/

theorem extract_all_unfolds_aux :
    ∀ (n : Nat) (buf : List Nat), buf.length ≤ n →
      (∀ b1, extract_frame_from_buffer buf = (b1, none) →
        extract_all buf = (b1, [])) ∧
      (∀ b1 f, extract_frame_from_buffer buf = (b1, some f) →
        extract_all buf = ((extract_all b1).1, f :: (extract_all b1).2)) := by
  intro n
  induction n with
  | zero =>
    intro buf hb
    have hbnil : buf = [] := List.length_eq_zero.1 (by omega)
    subst hbnil
    have hfe : extract_frame_from_buffer [] = ([], none) := by
      rw [extract_frame_none (by simp [find_header])]
      simp
    constructor
    · intro b1 h
      rw [hfe] at h
      cases h
      exact extract_all_nil
    · intro b1 f h
      rw [hfe] at h
      cases h
  | succ n ih =>
    intro buf hb
    cases hfb : find_header buf with
    | none =>
      have hfe := extract_frame_none hfb
      constructor
      · intro b1 h
        rw [hfe] at h
        cases h
        rw [extract_all_none hfb]
      · intro b1 f h
        rw [hfe] at h
        cases h
    | some idx =>
      by_cases h30 : buf.length - idx < FRAME_LEN
      · have hfe := extract_frame_incomplete hfb h30
        constructor
        · intro b1 h
          rw [hfe] at h
          cases h
          exact extract_all_incomplete hfb h30
        · intro b1 f h
          rw [hfe] at h
          cases h
      · by_cases ht :
            ((buf.drop idx).take FRAME_LEN).drop (FRAME_LEN - 2) = FRAME_TAIL
        · have hfe := extract_frame_complete_ok hfb h30 ht
          constructor
          · intro b1 h
            rw [hfe] at h
            cases h
          · intro b1 f h
            rw [hfe] at h
            injection h with h1 h2
            injection h2 with h2
            subst h1
            subst h2
            exact extract_all_complete_ok hfb h30 ht
        · have hfe := extract_frame_complete_bad hfb h30 ht
          have hlrest : (buf.drop (idx + FRAME_LEN)).length ≤ n := by
            have hidx4 : idx + 4 ≤ buf.length := find_header_some_length hfb
            simp only [List.length_drop]
            unfold FRAME_LEN at h30 ⊢
            omega
          constructor
          · intro b1 h
            rw [hfe] at h
            rw [extract_all_complete_bad hfb h30 ht]
            exact (ih _ hlrest).1 b1 h
          · intro b1 f h
            rw [hfe] at h
            rw [extract_all_complete_bad hfb h30 ht]
            exact (ih _ hlrest).2 b1 f h

/-- `extract_all` is exactly "call `_extract_frame_from_buffer` repeatedly,
collect the emitted frames, stop at `None`". -/
theorem extract_all_unfolds (buf : List Nat) :
    (∀ b1, extract_frame_from_buffer buf = (b1, none) →
      extract_all buf = (b1, [])) ∧
    (∀ b1 f, extract_frame_from_buffer buf = (b1, some f) →
      extract_all buf = ((extract_all b1).1, f :: (extract_all b1).2)) :=
  extract_all_unfolds_aux buf.length buf le_rfl

/-! ## Buffer-size analysis (claim C9) -/

theorem extract_frame_length_le :
    ∀ (n : Nat) (buf : List Nat), buf.length ≤ n →
      ((extract_frame_from_buffer buf).1).length ≤ buf.length := by
  intro n
  induction n with
  | zero =>
    intro buf hb
    have hbnil : buf = [] := List.length_eq_zero.1 (by omega)
    subst hbnil
    rw [extract_frame_none (by simp [find_header])]
    simp
  | succ n ih =>
    intro buf hb
    cases hfb : find_header buf with
    | none =>
      rw [extract_frame_none hfb]
      by_cases hlen : 3 < buf.length
      · rw [if_pos hlen]
        simp
      · rw [if_neg hlen]
    | some idx =>
      by_cases h30 : buf.length - idx < FRAME_LEN
      · rw [extract_frame_incomplete hfb h30]
      · by_cases ht :
            ((buf.drop idx).take FRAME_LEN).drop (FRAME_LEN - 2) = FRAME_TAIL
        · rw [extract_frame_complete_ok hfb h30 ht]
          simp
        · rw [extract_frame_complete_bad hfb h30 ht]
          have hidx4 : idx + 4 ≤ buf.length := find_header_some_length hfb
          have hlrest : (buf.drop (idx + FRAME_LEN)).length ≤ n := by
            simp only [List.length_drop]
            unfold FRAME_LEN at h30 ⊢
            omega
          calc ((extract_frame_from_buffer (buf.drop (idx + FRAME_LEN))).1).length
              ≤ (buf.drop (idx + FRAME_LEN)).length := ih _ hlrest
            _ ≤ buf.length := by simp

theorem extract_all_state_shape :
    ∀ (n : Nat) (b : List Nat), b.length ≤ n →
      ((extract_all b).1).length ≤ 3 ∨
        ∃ i, find_header ((extract_all b).1) = some i ∧
          ((extract_all b).1).length ≤ i + 29 ∧
          ((extract_all b).1 = b ∨
            ∃ i0, find_header b = some i0 ∧
              ((extract_all b).1).length ≤ b.length - i0 - 30) := by
  intro n
  induction n with
  | zero =>
    intro b hb
    have hbnil : b = [] := List.length_eq_zero.1 (by omega)
    subst hbnil
    rw [extract_all_nil]
    left
    simp
  | succ n ih =>
    intro b hb
    cases hfb : find_header b with
    | none =>
      by_cases hlen : 3 < b.length
      · rw [extract_all_none hfb, if_pos hlen]
        left
        dsimp only
        simp only [List.length_drop]
        omega
      · rw [extract_all_none hfb, if_neg hlen]
        left
        dsimp only
        omega
    | some idx =>
      have hidx4 : idx + 4 ≤ b.length := find_header_some_length hfb
      by_cases h30 : b.length - idx < FRAME_LEN
      · rw [extract_all_incomplete hfb h30]
        dsimp only
        right
        refine ⟨idx, by simpa using hfb, ?_, Or.inl rfl⟩
        unfold FRAME_LEN at h30
        omega
      · have hlrest : (b.drop (idx + FRAME_LEN)).length ≤ n := by
          simp only [List.length_drop]
          unfold FRAME_LEN at h30 ⊢
          omega
        have hrlen : (b.drop (idx + FRAME_LEN)).length = b.length - idx - FRAME_LEN := by
          simp only [List.length_drop]
          omega
        have hstep :
            (extract_all b).1 = (extract_all (b.drop (idx + FRAME_LEN))).1 := by
          by_cases ht :
              ((b.drop idx).take FRAME_LEN).drop (FRAME_LEN - 2) = FRAME_TAIL
          · rw [extract_all_complete_ok hfb h30 ht]
          · rw [extract_all_complete_bad hfb h30 ht]
        rw [hstep]
        rcases ih _ hlrest with h3 | ⟨i, hfi, hleni, hinner⟩
        · left
          exact h3
        · right
          refine ⟨i, hfi, hleni, Or.inr ⟨idx, rfl, ?_⟩⟩
          rcases hinner with hst | ⟨i1, hfi1, hle1⟩
          · rw [hst, hrlen]
            unfold FRAME_LEN
            omega
          · have : (b.drop (idx + FRAME_LEN)).length ≤ b.length - idx - 30 := by
              rw [hrlen]
              unfold FRAME_LEN
              omega
            omega

theorem bufinv_length {b : List Nat} (h : BufInv b) : b.length ≤ 92 := by
  rcases h with h3 | ⟨i, -, hlen, hi⟩
  · omega
  · omega

theorem bufinv_preserved {b c : List Nat} (hb : BufInv b)
    (hc : c.length ≤ 64) : BufInv ((extract_all (b ++ c)).1) := by
  rcases extract_all_state_shape (b ++ c).length (b ++ c) le_rfl with
    h3 | ⟨i, hfi, hleni, hinner⟩
  · left
    exact h3
  · right
    have hi4 : i + 4 ≤ ((extract_all (b ++ c)).1).length :=
      find_header_some_length hfi
    refine ⟨i, hfi, hleni, ?_⟩
    rcases hinner with hst | ⟨i0, hf0, hle0⟩
    · rcases hb with hb3 | ⟨j, hfj, hlenj, hj63⟩
      · have hlst : ((extract_all (b ++ c)).1).length = b.length + c.length := by
          rw [hst, List.length_append]
        omega
      · have hfbc : find_header (b ++ c) = some j :=
          find_header_append_of_some c hfj
        rw [hst] at hfi
        rw [hfi] at hfbc
        injection hfbc with hij
        omega
    · have hlbc : (b ++ c).length = b.length + c.length := by
        rw [List.length_append]
      rcases hb with hb3 | ⟨j, hfj, hlenj, hj63⟩
      · omega
      · have hfbc : find_header (b ++ c) = some j :=
          find_header_append_of_some c hfj
        rw [hf0] at hfbc
        injection hfbc with hij
        omega

theorem run_chunks_bufinv :
    ∀ (chunks : List (List Nat)) (b : List Nat), BufInv b →
      (∀ c ∈ chunks, c.length ≤ 64) → BufInv ((run_chunks b chunks).1) := by
  intro chunks
  induction chunks with
  | nil =>
    intro b hb hc
    exact hb
  | cons c cs ih =>
    intro b hb hc
    simp only [run_chunks, feed_bytes]
    exact ih _ (bufinv_preserved hb (hc c (by simp)))
      (fun d hd => hc d (by simp [hd]))

theorem goodF_length : goodF.length = 30 := rfl

/-- A well-formed 30-byte frame at the head of the buffer is extracted
whole, leaving exactly the bytes after it. -/
theorem extract_frame_valid_head (F X : List Nat) (hlen : F.length = FRAME_LEN)
    (hhead : F.take 4 = FRAME_HEADER)
    (htail : F.drop (FRAME_LEN - 2) = FRAME_TAIL) :
    extract_frame_from_buffer (F ++ X) = (X, some F) := by
  have hfour : 4 ≤ F.length := by rw [hlen]; unfold FRAME_LEN; omega
  have hf : find_header (F ++ X) = some 0 := by
    rw [find_header_eq_some_iff]
    refine ⟨?_, fun j hj => absurd hj (Nat.not_lt_zero j)⟩
    rw [isHeaderAt_zero, List.take_append_of_le_length hfour]
    exact hhead
  have h30 : ¬ (F ++ X).length - 0 < FRAME_LEN := by
    rw [List.length_append, hlen]
    omega
  have hwin : ((F ++ X).drop 0).take FRAME_LEN = F := by
    rw [List.drop_zero, List.take_append_of_le_length (by rw [hlen])]
    rw [← hlen, List.take_length]
  have ht : (((F ++ X).drop 0).take FRAME_LEN).drop (FRAME_LEN - 2) = FRAME_TAIL := by
    rw [hwin]
    exact htail
  rw [extract_frame_complete_ok hf h30 ht, hwin]
  rw [Nat.zero_add, List.drop_append_of_le_length (by rw [hlen]),
    List.drop_eq_nil_of_le (by rw [hlen]), List.nil_append]

/-- Same statement for the draining extractor. -/
theorem extract_all_valid_head (F X : List Nat) (hlen : F.length = FRAME_LEN)
    (hhead : F.take 4 = FRAME_HEADER)
    (htail : F.drop (FRAME_LEN - 2) = FRAME_TAIL) :
    extract_all (F ++ X) = ((extract_all X).1, F :: (extract_all X).2) := by
  have hfour : 4 ≤ F.length := by rw [hlen]; unfold FRAME_LEN; omega
  have hf : find_header (F ++ X) = some 0 := by
    rw [find_header_eq_some_iff]
    refine ⟨?_, fun j hj => absurd hj (Nat.not_lt_zero j)⟩
    rw [isHeaderAt_zero, List.take_append_of_le_length hfour]
    exact hhead
  have h30 : ¬ (F ++ X).length - 0 < FRAME_LEN := by
    rw [List.length_append, hlen]
    omega
  have hwin : ((F ++ X).drop 0).take FRAME_LEN = F := by
    rw [List.drop_zero, List.take_append_of_le_length (by rw [hlen])]
    rw [← hlen, List.take_length]
  have ht : (((F ++ X).drop 0).take FRAME_LEN).drop (FRAME_LEN - 2) = FRAME_TAIL := by
    rw [hwin]
    exact htail
  have hrest : (F ++ X).drop (0 + FRAME_LEN) = X := by
    rw [Nat.zero_add, List.drop_append_of_le_length (by rw [hlen]),
      List.drop_eq_nil_of_le (by rw [hlen]), List.nil_append]
  rw [extract_all_complete_ok hf h30 ht, hwin, hrest]

/-- A 30-byte window at the head whose tail check fails is consumed and
skipped, for the single extractor. -/
theorem extract_frame_corrupt_head (g X : List Nat) (hg : g.length = 26)
    (hgt : g.drop 24 ≠ FRAME_TAIL) :
    extract_frame_from_buffer (FRAME_HEADER ++ g ++ X) =
      extract_frame_from_buffer X := by
  have hlenF : (FRAME_HEADER ++ g).length = FRAME_LEN := by
    rw [List.length_append, hg]
    rfl
  have hf : find_header (FRAME_HEADER ++ g ++ X) = some 0 := by
    rw [find_header_eq_some_iff]
    refine ⟨?_, fun j hj => absurd hj (Nat.not_lt_zero j)⟩
    rw [isHeaderAt_zero, List.take_append_of_le_length (by rw [hlenF]; unfold FRAME_LEN; omega),
      List.take_append_of_le_length (by rfl)]
    rfl
  have h30 : ¬ (FRAME_HEADER ++ g ++ X).length - 0 < FRAME_LEN := by
    rw [List.length_append, hlenF]
    omega
  have hwin : ((FRAME_HEADER ++ g ++ X).drop 0).take FRAME_LEN = FRAME_HEADER ++ g := by
    rw [List.drop_zero, List.take_append_of_le_length (by rw [hlenF])]
    rw [← hlenF, List.take_length]
  have ht : ¬ (((FRAME_HEADER ++ g ++ X).drop 0).take FRAME_LEN).drop (FRAME_LEN - 2) =
      FRAME_TAIL := by
    rw [hwin]
    show ¬ (FRAME_HEADER ++ g).drop 28 = FRAME_TAIL
    rw [List.drop_append_eq_append_drop]
    simp only [FRAME_HEADER, List.length_cons, List.length_nil]
    intro hc
    apply hgt
    have : List.drop 28 [0xAA, 0xFF, 0x03, 0x00] = [] := rfl
    rw [this, List.nil_append] at hc
    simpa using hc
  rw [extract_frame_complete_bad hf h30 ht, Nat.zero_add,
    List.drop_append_of_le_length (by rw [hlenF]),
    List.drop_eq_nil_of_le (by rw [hlenF]), List.nil_append]

/-- Same statement for the draining extractor. -/
theorem extract_all_corrupt_head (g X : List Nat) (hg : g.length = 26)
    (hgt : g.drop 24 ≠ FRAME_TAIL) :
    extract_all (FRAME_HEADER ++ g ++ X) = extract_all X := by
  have hlenF : (FRAME_HEADER ++ g).length = FRAME_LEN := by
    rw [List.length_append, hg]
    rfl
  have hf : find_header (FRAME_HEADER ++ g ++ X) = some 0 := by
    rw [find_header_eq_some_iff]
    refine ⟨?_, fun j hj => absurd hj (Nat.not_lt_zero j)⟩
    rw [isHeaderAt_zero, List.take_append_of_le_length (by rw [hlenF]; unfold FRAME_LEN; omega),
      List.take_append_of_le_length (by rfl)]
    rfl
  have h30 : ¬ (FRAME_HEADER ++ g ++ X).length - 0 < FRAME_LEN := by
    rw [List.length_append, hlenF]
    omega
  have hwin : ((FRAME_HEADER ++ g ++ X).drop 0).take FRAME_LEN = FRAME_HEADER ++ g := by
    rw [List.drop_zero, List.take_append_of_le_length (by rw [hlenF])]
    rw [← hlenF, List.take_length]
  have ht : ¬ (((FRAME_HEADER ++ g ++ X).drop 0).take FRAME_LEN).drop (FRAME_LEN - 2) =
      FRAME_TAIL := by
    rw [hwin]
    show ¬ (FRAME_HEADER ++ g).drop 28 = FRAME_TAIL
    rw [List.drop_append_eq_append_drop]
    simp only [FRAME_HEADER, List.length_cons, List.length_nil]
    intro hc
    apply hgt
    have : List.drop 28 [0xAA, 0xFF, 0x03, 0x00] = [] := rfl
    rw [this, List.nil_append] at hc
    simpa using hc
  rw [extract_all_complete_bad hf h30 ht, Nat.zero_add,
    List.drop_append_of_le_length (by rw [hlenF]),
    List.drop_eq_nil_of_le (by rw [hlenF]), List.nil_append]

/-- C8 (confirmed). For every byte stream consisting of the 4-byte header
followed by 26 bytes whose last two bytes are not the tail marker, followed
by a second complete valid frame: the synchronizer consumes the corrupt
30-byte window (even though validation fails), drops it without error, and
emits exactly one raw frame — the second one.  First conjunct: the single
`_extract_frame_from_buffer` call already returns the second frame with the
corrupt window consumed; second conjunct: draining emits exactly that one
frame. -/
theorem corrupt_frame_resync (g m : List Nat) (hg : g.length = 26)
    (hgt : g.drop 24 ≠ FRAME_TAIL) (hm : m.length = 24) :
    extract_frame_from_buffer
        (FRAME_HEADER ++ g ++ (FRAME_HEADER ++ m ++ FRAME_TAIL)) =
      ([], some (FRAME_HEADER ++ m ++ FRAME_TAIL)) ∧
    (extract_all (FRAME_HEADER ++ g ++ (FRAME_HEADER ++ m ++ FRAME_TAIL))).2 =
      [FRAME_HEADER ++ m ++ FRAME_TAIL] := by
  have hlen2 : (FRAME_HEADER ++ m ++ FRAME_TAIL).length = FRAME_LEN := by
    simp only [List.length_append, hm]
    rfl
  have hhead2 : (FRAME_HEADER ++ m ++ FRAME_TAIL).take 4 = FRAME_HEADER := by
    rw [List.take_append_of_le_length (by simp [hm]),
      List.take_append_of_le_length (by rfl)]
    rfl
  have htail2 : (FRAME_HEADER ++ m ++ FRAME_TAIL).drop (FRAME_LEN - 2) =
      FRAME_TAIL := by
    rw [List.drop_append_eq_append_drop,
      List.drop_eq_nil_of_le (by rw [List.length_append, hm]; decide),
      List.nil_append]
    have hl : (FRAME_HEADER ++ m).length = 28 := by
      rw [List.length_append, hm]
      rfl
    rw [hl]
    norm_num [FRAME_LEN]
  constructor
  · rw [extract_frame_corrupt_head g _ hg hgt]
    have h := extract_frame_valid_head (FRAME_HEADER ++ m ++ FRAME_TAIL) []
      hlen2 hhead2 htail2
    rw [List.append_nil] at h
    exact h
  · rw [extract_all_corrupt_head g _ hg hgt]
    have h := extract_all_valid_head (FRAME_HEADER ++ m ++ FRAME_TAIL) []
      hlen2 hhead2 htail2
    rw [List.append_nil] at h
    rw [h, extract_all_nil]

theorem corrupt_frame_resync_witness :
    extract_frame_from_buffer
        (FRAME_HEADER ++ List.replicate 26 7 ++
          (FRAME_HEADER ++ List.replicate 24 0 ++ FRAME_TAIL)) =
      ([], some (FRAME_HEADER ++ List.replicate 24 0 ++ FRAME_TAIL)) :=
  (corrupt_frame_resync (List.replicate 26 7) (List.replicate 24 0)
    (by decide) (by decide) (by decide)).1

/-- C9 counterexample. The claim as stated — a single constant bounds the
buffer across all `read_frame` call sequences with chunks of at most 64
bytes — is false: `read_frame` runs one extraction per call (one frame
consumed, at most `idx + 30` bytes removed) while a 60-byte chunk can carry
two complete frames, so feeding `goodF ++ goodF` every call grows the
buffer by 30 bytes per call without bound. -/
theorem read_frame_buffer_unbounded : ¬ read_frame_buffer_bounded_claim := by
  have hsucc : ∀ n, frames_concat (n + 1) = goodF ++ frames_concat n := by
    intro n
    rfl
  have hsnoc : ∀ n, frames_concat n ++ goodF = frames_concat (n + 1) := by
    intro n
    induction n with
    | zero => rfl
    | succ k ih =>
      rw [hsucc k, hsucc (k + 1), List.append_assoc, ih]
  have hlen : ∀ n, (frames_concat n).length = 30 * n := by
    intro n
    induction n with
    | zero => rfl
    | succ k ih =>
      rw [hsucc k, List.length_append, ih, goodF_length]
      ring
  have hpump : ∀ (k n : Nat),
      read_run (frames_concat n) (List.replicate k (goodF ++ goodF)) =
        frames_concat (n + k) := by
    intro k
    induction k with
    | zero =>
      intro n
      simp [read_run]
    | succ k ih =>
      intro n
      rw [List.replicate_succ]
      show read_run (read_frame_step (frames_concat n) (goodF ++ goodF)).1 _ = _
      have hcomm : goodF ++ frames_concat n = frames_concat n ++ goodF :=
        (hsucc n).symm.trans (hsnoc n).symm
      have hbuf : frames_concat n ++ (goodF ++ goodF) =
          goodF ++ (frames_concat n ++ goodF) := by
        rw [← List.append_assoc, ← hcomm, List.append_assoc, hcomm]
      have hstep : (read_frame_step (frames_concat n) (goodF ++ goodF)).1 =
          frames_concat (n + 1) := by
        unfold read_frame_step
        rw [hbuf, extract_frame_valid_head goodF
          (frames_concat n ++ goodF) goodF_length rfl rfl]
        exact hsnoc n
      rw [hstep, ih (n + 1)]
      congr 1
      omega
  rintro ⟨N, h⟩
  have hchunks : ∀ c ∈ List.replicate (N + 1) (goodF ++ goodF),
      c.length ≤ 64 := by
    intro c hc
    rw [List.mem_replicate] at hc
    rw [hc.2, List.length_append, goodF_length]
    omega
  have hb := h (List.replicate (N + 1) (goodF ++ goodF)) hchunks (N + 1)
  rw [List.take_of_length_le (by rw [List.length_replicate])] at hb
  have h0 : ([] : List Nat) = frames_concat 0 := rfl
  rw [h0, hpump (N + 1) 0, hlen] at hb
  omega

/-- C9 amended.  With only one extraction per `read_frame` call the buffer
is unbounded (see `read_frame_buffer_unbounded`); the bound the algorithm
does provide is for drain-until-none feeding: (1) after every call that
drains all available frames the buffer holds at most 92 bytes
(≤ 63 junk-before-header + 29 pending); and per single extraction, (2) when
no header is found at most the last 3 bytes are retained, and (3) a located
full 30-byte window is always consumed, even on tail-validation failure. -/
theorem drained_buffer_bounded :
    (∀ chunks : List (List Nat), (∀ c ∈ chunks, c.length ≤ 64) →
      ∀ n, ((run_chunks [] (chunks.take n)).1).length ≤ 92) ∧
    (∀ buf : List Nat, find_header buf = none →
      ((extract_frame_from_buffer buf).1).length ≤ 3) ∧
    (∀ (buf : List Nat) (idx : Nat), find_header buf = some idx →
      ¬ buf.length - idx < FRAME_LEN →
      ((extract_frame_from_buffer buf).1).length ≤
        buf.length - idx - FRAME_LEN) := by
  refine ⟨?_, ?_, ?_⟩
  · intro chunks hc n
    have hinv : BufInv ((run_chunks [] (chunks.take n)).1) := by
      apply run_chunks_bufinv
      · left
        simp
      · intro c hcn
        exact hc c (List.take_subset n chunks hcn)
    exact bufinv_length hinv
  · intro buf hf
    rw [extract_frame_none hf]
    by_cases hlen : 3 < buf.length
    · rw [if_pos hlen]
      dsimp only
      simp only [List.length_drop]
      omega
    · rw [if_neg hlen]
      dsimp only
      omega
  · intro buf idx hf h30
    by_cases ht :
        ((buf.drop idx).take FRAME_LEN).drop (FRAME_LEN - 2) = FRAME_TAIL
    · rw [extract_frame_complete_ok hf h30 ht]
      dsimp only
      simp only [List.length_drop]
      omega
    · rw [extract_frame_complete_bad hf h30 ht]
      have hlrest := extract_frame_length_le
        (buf.drop (idx + FRAME_LEN)).length (buf.drop (idx + FRAME_LEN)) le_rfl
      simp only [List.length_drop] at hlrest
      omega

theorem drained_buffer_bounded_witness :
    ((run_chunks [] (([[0, 1, 2]] : List (List Nat)).take 1)).1).length ≤ 92 :=
  drained_buffer_bounded.1 [[0, 1, 2]] (by decide) 1

/-! ## Decoding and parsing (claims C4, C2) -/

theorem parse_slot_fields {frame : List Nat} {k : Nat} {t : Target}
    (ht : parse_slot frame k = some t) :
    t.id = k + 1 ∧
    t.x_mm = decode_signed_mag
        (u16le ((slot_bytes frame k).getD 0 0) ((slot_bytes frame k).getD 1 0)) ∧
    t.y_mm = decode_signed_mag
        (u16le ((slot_bytes frame k).getD 2 0) ((slot_bytes frame k).getD 3 0)) ∧
    t.r_mm = int_hypot t.x_mm t.y_mm ∧
    t.speed_cm_s = decode_signed_mag
        (u16le ((slot_bytes frame k).getD 4 0) ((slot_bytes frame k).getD 5 0)) ∧
    t.dist_gate_mm =
        u16le ((slot_bytes frame k).getD 6 0) ((slot_bytes frame k).getD 7 0) := by
  unfold parse_slot at ht
  dsimp only at ht
  by_cases hz : slot_bytes frame k = List.replicate 8 0
  · rw [if_pos hz] at ht
    cases ht
  · rw [if_neg hz] at ht
    injection ht with h
    subst h
    exact ⟨rfl, rfl, rfl, rfl, rfl, rfl⟩

theorem parse_targets_mem {frame : List Nat} {t : Target}
    (ht : t ∈ parse_targets frame) :
    ∃ k, k < 3 ∧ parse_slot frame k = some t := by
  unfold parse_targets at ht
  rcases List.mem_append.1 ht with h12 | h3
  · rcases List.mem_append.1 h12 with h1 | h2
    · refine ⟨0, by omega, ?_⟩
      cases hp : parse_slot frame 0 with
      | none => rw [hp] at h1; cases h1
      | some u => rw [hp] at h1; simp at h1; rw [h1]
    · refine ⟨1, by omega, ?_⟩
      cases hp : parse_slot frame 1 with
      | none => rw [hp] at h2; cases h2
      | some u => rw [hp] at h2; simp at h2; rw [h2]
  · refine ⟨2, by omega, ?_⟩
    cases hp : parse_slot frame 2 with
    | none => rw [hp] at h3; cases h3
    | some u => rw [hp] at h3; simp at h3; rw [h3]

theorem int_hypot_2_2 : int_hypot 2 2 = 2 := by
  unfold int_hypot
  norm_num

theorem int_hypot_3000_4000 : int_hypot 3000 4000 = 5000 := by
  unfold int_hypot
  norm_num

theorem parse_slot_x2y2 :
    parse_slot frame_x2_y2 0 =
      some { id := 1, x_mm := 2, y_mm := 2, r_mm := 2, speed_cm_s := 0,
             dist_gate_mm := 0 } := by
  unfold parse_slot
  dsimp only
  rw [if_neg (by decide)]
  rw [show decode_signed_mag
      (u16le ((slot_bytes frame_x2_y2 0).getD 0 0)
        ((slot_bytes frame_x2_y2 0).getD 1 0)) = 2 from by decide]
  rw [show decode_signed_mag
      (u16le ((slot_bytes frame_x2_y2 0).getD 2 0)
        ((slot_bytes frame_x2_y2 0).getD 3 0)) = 2 from by decide]
  rw [int_hypot_2_2]
  decide

theorem parse_targets_x2y2 :
    parse_targets frame_x2_y2 =
      [{ id := 1, x_mm := 2, y_mm := 2, r_mm := 2, speed_cm_s := 0,
         dist_gate_mm := 0 }] := by
  unfold parse_targets
  rw [parse_slot_x2y2,
    show parse_slot frame_x2_y2 1 = none from by decide,
    show parse_slot frame_x2_y2 2 = none from by decide]
  rfl

/-- C4 (confirmed). The signed-magnitude decode of a 16-bit field is 0 at 0,
`+(u &&& 0x7FFF)` when bit 15 is set, `-(u &&& 0x7FFF)` otherwise; `0x8064`
decodes to +100 and `0x0064` to -100; `parse_targets` applies it to the x, y
and speed fields of each non-zero slot while the distance gate stays a plain
unsigned value. -/
theorem signed_magnitude_decode_spec :
    (∀ u : Nat, decode_signed_mag u =
      if u = 0 then 0
      else if u.testBit 15 then ((u &&& 0x7FFF : Nat) : Int)
      else -((u &&& 0x7FFF : Nat) : Int)) ∧
    decode_signed_mag 0x8064 = 100 ∧
    decode_signed_mag 0x0064 = -100 ∧
    decode_signed_mag 0 = 0 ∧
    (∀ (frame : List Nat) (k : Nat) (t : Target), parse_slot frame k = some t →
      t.x_mm = decode_signed_mag
          (u16le ((slot_bytes frame k).getD 0 0) ((slot_bytes frame k).getD 1 0)) ∧
      t.y_mm = decode_signed_mag
          (u16le ((slot_bytes frame k).getD 2 0) ((slot_bytes frame k).getD 3 0)) ∧
      t.speed_cm_s = decode_signed_mag
          (u16le ((slot_bytes frame k).getD 4 0) ((slot_bytes frame k).getD 5 0)) ∧
      t.dist_gate_mm =
          u16le ((slot_bytes frame k).getD 6 0) ((slot_bytes frame k).getD 7 0)) := by
  refine ⟨?_, by decide, by decide, by decide, ?_⟩
  · intro u
    by_cases h0 : u = 0
    · simp [decode_signed_mag, h0]
    · cases htb : u.testBit 15 with
      | true =>
        have hand : u &&& 0x8000 ≠ 0 := by
          have h := Nat.and_two_pow u 15
          rw [htb] at h
          norm_num at h
          norm_num [h]
        simp [decode_signed_mag, h0, hand, htb]
      | false =>
        have hand : u &&& 0x8000 = 0 := by
          have h := Nat.and_two_pow u 15
          rw [htb] at h
          norm_num at h
          norm_num [h]
        simp [decode_signed_mag, h0, hand, htb]
  · intro frame k t ht
    obtain ⟨-, hx, hy, -, hv, hd⟩ := parse_slot_fields ht
    exact ⟨hx, hy, hv, hd⟩

theorem signed_magnitude_decode_spec_witness :
    (⟨1, 2, 2, 2, 0, 0⟩ : Target).x_mm =
      decode_signed_mag
        (u16le ((slot_bytes frame_x2_y2 0).getD 0 0)
          ((slot_bytes frame_x2_y2 0).getD 1 0)) :=
  (signed_magnitude_decode_spec.2.2.2.2 frame_x2_y2 0 ⟨1, 2, 2, 2, 0, 0⟩
    parse_slot_x2y2).1

/-- Justification that `round_sqrt` is the nearest integer to `√n`:
`(2k - 1)² ≤ 4n < (2k + 1)²`, i.e. `k - 1/2 ≤ √n < k + 1/2`. -/
theorem round_sqrt_bounds (n : Nat) :
    (2 * round_sqrt n ≤ 1 ∨ (2 * round_sqrt n - 1) ^ 2 ≤ 4 * n) ∧
    4 * n < (2 * round_sqrt n + 1) ^ 2 := by
  unfold round_sqrt
  have h1 : Nat.sqrt (4 * n) ^ 2 ≤ 4 * n := Nat.sqrt_le' (4 * n)
  have h2 : 4 * n < (Nat.sqrt (4 * n) + 1) ^ 2 := by
    have := Nat.lt_succ_sqrt' (4 * n)
    simpa [Nat.succ_eq_add_one] using this
  constructor
  · by_cases hz : Nat.sqrt (4 * n) = 0
    · left
      rw [hz]
      norm_num
    · right
      have hle : 2 * ((Nat.sqrt (4 * n) + 1) / 2) - 1 ≤ Nat.sqrt (4 * n) := by
        omega
      calc (2 * ((Nat.sqrt (4 * n) + 1) / 2) - 1) ^ 2
          ≤ Nat.sqrt (4 * n) ^ 2 := Nat.pow_le_pow_left hle 2
        _ ≤ 4 * n := h1
  · have hge : Nat.sqrt (4 * n) + 1 ≤ 2 * ((Nat.sqrt (4 * n) + 1) / 2) + 1 := by
      omega
    calc 4 * n < (Nat.sqrt (4 * n) + 1) ^ 2 := h2
      _ ≤ (2 * ((Nat.sqrt (4 * n) + 1) / 2) + 1) ^ 2 := Nat.pow_le_pow_left hge 2

/-- C2 counterexample. At `x_mm = 2, y_mm = 2` (a decodable slot, raw
`0x8002`) the code stores `r_mm = int(hypot) = ⌊√8⌋ = 2`, while the claimed
`round(sqrt(x² + y²))` is 3 — the code truncates instead of rounding. -/
theorem range_mm_truncates_counterexample :
    parse_targets frame_x2_y2 =
      [{ id := 1, x_mm := 2, y_mm := 2, r_mm := 2, speed_cm_s := 0,
         dist_gate_mm := 0 }] ∧
    round_sqrt ((2 : Int).natAbs ^ 2 + (2 : Int).natAbs ^ 2) = 3 ∧
    (2 : Nat) ≠ 3 := by
  refine ⟨parse_targets_x2y2, ?_, by decide⟩
  unfold round_sqrt
  norm_num

/-- C2 amended.  `range_mm` is the floor (truncation), not the rounding, of
the Euclidean norm: `r_mm² ≤ x_mm² + y_mm² < (r_mm + 1)²`; the 3-4-5 example
`x=3000, y=4000 → 5000` still holds (exact square), `r_mm : Nat` is
non-negative by construction, and every parsed target carries this derived
value. -/
theorem range_mm_floor_of_hypot :
    (∀ x y : Int, ((int_hypot x y : Int)) ^ 2 ≤ x ^ 2 + y ^ 2 ∧
      x ^ 2 + y ^ 2 < ((int_hypot x y : Int) + 1) ^ 2) ∧
    int_hypot 3000 4000 = 5000 ∧
    (∀ frame : List Nat, ∀ t ∈ parse_targets frame,
      t.r_mm = int_hypot t.x_mm t.y_mm) := by
  refine ⟨?_, int_hypot_3000_4000, ?_⟩
  · intro x y
    unfold int_hypot
    have hxy : ((x.natAbs ^ 2 + y.natAbs ^ 2 : Nat) : Int) = x ^ 2 + y ^ 2 := by
      push_cast
      rw [sq_abs, sq_abs]
    constructor
    · have h := Nat.sqrt_le' (x.natAbs ^ 2 + y.natAbs ^ 2)
      calc ((Nat.sqrt (x.natAbs ^ 2 + y.natAbs ^ 2) : Int)) ^ 2
          = ((Nat.sqrt (x.natAbs ^ 2 + y.natAbs ^ 2) ^ 2 : Nat) : Int) := by
            push_cast
            ring
        _ ≤ ((x.natAbs ^ 2 + y.natAbs ^ 2 : Nat) : Int) := by
            exact_mod_cast h
        _ = x ^ 2 + y ^ 2 := hxy
    · have h := Nat.lt_succ_sqrt' (x.natAbs ^ 2 + y.natAbs ^ 2)
      calc x ^ 2 + y ^ 2 = ((x.natAbs ^ 2 + y.natAbs ^ 2 : Nat) : Int) := hxy.symm
        _ < (((Nat.sqrt (x.natAbs ^ 2 + y.natAbs ^ 2) + 1) ^ 2 : Nat) : Int) := by
            exact_mod_cast (by simpa [Nat.succ_eq_add_one] using h)
        _ = ((Nat.sqrt (x.natAbs ^ 2 + y.natAbs ^ 2) : Int) + 1) ^ 2 := by
            push_cast
            ring
  · intro frame t ht
    obtain ⟨k, -, hp⟩ := parse_targets_mem ht
    exact (parse_slot_fields hp).2.2.2.1

theorem range_mm_floor_of_hypot_witness :
    (⟨1, 2, 2, 2, 0, 0⟩ : Target).r_mm =
      int_hypot (⟨1, 2, 2, 2, 0, 0⟩ : Target).x_mm
        (⟨1, 2, 2, 2, 0, 0⟩ : Target).y_mm :=
  range_mm_floor_of_hypot.2.2 frame_x2_y2 ⟨1, 2, 2, 2, 0, 0⟩
    (by rw [parse_targets_x2y2]; exact List.mem_singleton_self _)

/-! ## Classifier (claim C5) -/

/-- C5 (confirmed). Classification is total and evaluates the four rules in
order with first match winning — `classify_target` coincides with the rule
list exactly as the specification words it (out-of-range before too-fast
before stationary before person), and the four quoted instances hold:
`range_m = 0.3 → Ghost/0.2` regardless of speed, `range_m = 2, speed 0
→ Object/0.8`, `speed 50 cm/s → Person/0.85`, `speed 500 cm/s →
Ghost/0.3`. -/
theorem classifier_rule_order :
    (∀ t : Target, classify_target t = classify_rule_list t) ∧
    (∀ (i : Nat) (x y s : Int) (g : Nat),
      classify_target ⟨i, x, y, 300, s, g⟩ = (OBJECT_TYPE_GHOST, 0.2)) ∧
    (∀ (i : Nat) (x y : Int) (g : Nat),
      classify_target ⟨i, x, y, 2000, 0, g⟩ = (OBJECT_TYPE_OBJECT, 0.8)) ∧
    (∀ (i : Nat) (x y : Int) (g : Nat),
      classify_target ⟨i, x, y, 2000, 50, g⟩ = (OBJECT_TYPE_PERSON, 0.85)) ∧
    (∀ (i : Nat) (x y : Int) (g : Nat),
      classify_target ⟨i, x, y, 2000, 500, g⟩ = (OBJECT_TYPE_GHOST, 0.3)) := by
  refine ⟨?_, ?_, ?_, ?_, ?_⟩
  · intro t
    unfold classify_target classify_rule_list
    dsimp only
    have habs : ((|t.speed_cm_s| : Int) : ℚ) / 100 = |(t.speed_cm_s : ℚ) / 100| := by
      rw [abs_div, Int.cast_abs]
      norm_num
    rw [habs]
  · intro i x y s g
    unfold classify_target
    dsimp only
    rw [if_pos]
    norm_num
  · intro i x y g
    unfold classify_target
    dsimp only
    rw [if_neg (by norm_num), if_neg (by norm_num), if_pos (by norm_num)]
  · intro i x y g
    unfold classify_target
    dsimp only
    rw [if_neg (by norm_num), if_neg (by norm_num), if_neg (by norm_num)]
  · intro i x y g
    unfold classify_target
    dsimp only
    rw [if_neg (by norm_num), if_pos (by norm_num)]

/-! ## Outbound packet encoding (claim C6) -/

theorem ifclamp_eq_clampQ (lo hi x : ℚ) (h : lo ≤ hi) :
    (if x < lo then lo else if x > hi then hi else x) = clampQ lo hi x := by
  unfold clampQ
  by_cases h1 : x < lo
  · rw [if_pos h1, min_eq_right (le_of_lt (lt_of_lt_of_le h1 h)),
      max_eq_left (le_of_lt h1)]
  · by_cases h2 : x > hi
    · rw [if_neg h1, if_pos h2, min_eq_left (le_of_lt h2), max_eq_right h]
    · rw [if_neg h1, if_neg h2, min_eq_right (not_lt.1 h2),
        max_eq_right (not_lt.1 h1)]

theorem f32le_length (q : ℚ) : (f32le q).length = 4 := rfl

/-- C6 (confirmed). The outbound packet is exactly five little-endian 32-bit
IEEE-754 floats followed by one unsigned byte — 21 bytes, no padding — whose
fields are `visual_x/y = clamp((x|y)_mm/1000 · 3, -10, 10)`, `depth =
r_mm/1000`, `signal_quality_db = clamp(40 − depth·5, 5, 35)`, `confidence =
clamp((signal_quality_db − 5)/30, 0, 1)` and the classifier's object-type
ordinal masked to one byte; `depth = 2` gives `snr = 30` and
`x_mm = 5000000` clamps `visual_x` to 10. -/
theorem outbound_packet_layout_and_fields :
    (∀ t : Target,
      pack_radar_data t =
        f32le (clampQ (-10) 10 ((t.x_mm : ℚ) / 1000 * 3)) ++
        f32le (clampQ (-10) 10 ((t.y_mm : ℚ) / 1000 * 3)) ++
        f32le ((t.r_mm : ℚ) / 1000) ++
        f32le (clampQ 5 35 (40 - (t.r_mm : ℚ) / 1000 * 5)) ++
        f32le (clampQ 0 1
          ((clampQ 5 35 (40 - (t.r_mm : ℚ) / 1000 * 5) - 5) / 30)) ++
        [(classify_target t).1 &&& 0xFF] ∧
      (pack_radar_data t).length = 21) ∧
    (∀ t : Target, t.r_mm = 2000 → (pack_fields t).snr_db = 30) ∧
    (∀ t : Target, t.x_mm = 5000000 → (pack_fields t).vis_x = 10) := by
  refine ⟨?_, ?_, ?_⟩
  · intro t
    constructor
    · unfold pack_radar_data pack_fields
      dsimp only
      rw [← ifclamp_eq_clampQ 5 35 (40 - (t.r_mm : ℚ) / 1000 * 5) (by norm_num)]
      rw [← ifclamp_eq_clampQ 0 1 _ (by norm_num)]
      unfold clampQ MAX_POSITION_METERS POSITION_SCALE
      rfl
    · simp [pack_radar_data, f32le]
  · intro t h
    unfold pack_fields
    dsimp only
    rw [h]
    norm_num
  · intro t h
    unfold pack_fields MAX_POSITION_METERS POSITION_SCALE
    dsimp only
    rw [h]
    norm_num

theorem outbound_packet_layout_and_fields_witness :
    (pack_fields ⟨1, 0, 0, 2000, 0, 0⟩).snr_db = 30 :=
  outbound_packet_layout_and_fields.2.1 ⟨1, 0, 0, 2000, 0, 0⟩ rfl

/-! ## Relay queue (claim C1) -/

/-- C1 counterexample. The reader calls the blocking `queue.Queue.put` —
on a full queue (10 batches already queued) the enqueue of a non-empty
batch does not complete at all (`none`), so no pending batch is evicted and
the newest batch does not become retrievable: the claimed non-blocking
eviction behaviour is false. -/
theorem full_queue_put_blocks_counterexample : ¬ full_queue_eviction_claim := by
  intro h
  obtain ⟨q1, hq1, -⟩ :=
    h (List.replicate 10 [⟨1, 0, 0, 0, 0, 0⟩]) [⟨1, 0, 0, 5, 0, 0⟩]
      (by decide) (by decide)
  rw [show reader_enqueue (List.replicate 10 [⟨1, 0, 0, 0, 0, 0⟩])
      [⟨1, 0, 0, 5, 0, 0⟩] = none from by decide] at hq1
  cases hq1

/-- C1 amended. The reader's enqueue of a non-empty batch blocks on a full
queue — the `put` never completes and nothing is evicted — while on a queue
with free capacity it completes, appending the batch at the tail, where the
newest batch is retrievable. -/
theorem reader_enqueue_blocking_behavior :
    ∀ (q : List (List Target)) (ts : List Target), ts ≠ [] →
      (q.length < QUEUE_MAXSIZE →
        reader_enqueue q ts = some (q ++ [ts]) ∧
        (q ++ [ts]).getLast? = some ts) ∧
      (QUEUE_MAXSIZE ≤ q.length → reader_enqueue q ts = none) := by
  intro q ts hts
  constructor
  · intro hlt
    constructor
    · unfold reader_enqueue queue_put
      rw [if_neg hts, if_pos hlt]
    · rw [List.getLast?_concat]
  · intro hge
    unfold reader_enqueue queue_put
    rw [if_neg hts, if_neg (by omega)]

theorem reader_enqueue_blocking_behavior_witness :
    reader_enqueue [] [⟨1, 0, 0, 5, 0, 0⟩] = some [[⟨1, 0, 0, 5, 0, 0⟩]] :=
  ((reader_enqueue_blocking_behavior [] [⟨1, 0, 0, 5, 0, 0⟩]
    (by decide)).1 (by decide)).1

/-! ## Publish tick (claims C7, C10) -/

theorem select_closest_fold :
    ∀ (rest : List Target) (a m : Target),
      List.foldl
        (fun acc t =>
          match acc with
          | none => some t
          | some b => if t.r_mm < b.r_mm then some t else some b)
        (some a) rest = some m →
      (m = a ∧ ∀ u ∈ rest, a.r_mm ≤ u.r_mm) ∨
      (∃ k, rest.get? k = some m ∧ m.r_mm < a.r_mm ∧
        (∀ j u, j < k → rest.get? j = some u → m.r_mm < u.r_mm) ∧
        (∀ u ∈ rest, m.r_mm ≤ u.r_mm)) := by
  intro rest
  induction rest with
  | nil =>
    intro a m h
    simp only [List.foldl_nil] at h
    injection h with h
    left
    exact ⟨h.symm, by simp⟩
  | cons b l ih =>
    intro a m h
    simp only [List.foldl_cons] at h
    by_cases hb : b.r_mm < a.r_mm
    · rw [if_pos hb] at h
      rcases ih b m h with ⟨rfl, hmin⟩ | ⟨k, hget, hlt, hpre, hall⟩
      · right
        refine ⟨0, rfl, hb, fun j u hj _ => absurd hj (Nat.not_lt_zero j), ?_⟩
        intro u hu
        rcases List.mem_cons.1 hu with rfl | hul
        · exact le_rfl
        · exact hmin u hul
      · right
        refine ⟨k + 1, by simpa using hget, lt_trans hlt hb, ?_, ?_⟩
        · intro j u hj hgu
          cases j with
          | zero =>
            rw [List.get?_cons_zero] at hgu
            injection hgu with hgu
            subst hgu
            exact hlt
          | succ j0 =>
            rw [List.get?_cons_succ] at hgu
            exact hpre j0 u (by omega) hgu
        · intro u hu
          rcases List.mem_cons.1 hu with rfl | hul
          · exact le_of_lt hlt
          · exact hall u hul
    · rw [if_neg hb] at h
      rcases ih a m h with ⟨rfl, hmin⟩ | ⟨k, hget, hlt, hpre, hall⟩
      · left
        refine ⟨rfl, ?_⟩
        intro u hu
        rcases List.mem_cons.1 hu with rfl | hul
        · exact not_lt.1 hb
        · exact hmin u hul
      · right
        refine ⟨k + 1, by simpa using hget, hlt, ?_, ?_⟩
        · intro j u hj hgu
          cases j with
          | zero =>
            rw [List.get?_cons_zero] at hgu
            injection hgu with hgu
            subst hgu
            exact lt_of_lt_of_le hlt (not_lt.1 hb)
          | succ j0 =>
            rw [List.get?_cons_succ] at hgu
            exact hpre j0 u (by omega) hgu
        · intro u hu
          rcases List.mem_cons.1 hu with rfl | hul
          · exact le_of_lt (lt_of_lt_of_le hlt (not_lt.1 hb))
          · exact hall u hul

theorem select_closest_nil : select_closest ([] : List Target) = none := rfl

/-- `sorted(..., key=r_mm)[0]` characterised: the selected target sits at a
position `k`, every earlier position has strictly larger `r_mm` (stability:
first minimum wins), and no position has smaller `r_mm`. -/
theorem select_closest_spec {ts : List Target} {t : Target}
    (h : select_closest ts = some t) :
    ∃ k, ts.get? k = some t ∧
      (∀ j u, j < k → ts.get? j = some u → t.r_mm < u.r_mm) ∧
      (∀ u ∈ ts, t.r_mm ≤ u.r_mm) := by
  cases ts with
  | nil =>
    rw [select_closest_nil] at h
    cases h
  | cons a l =>
    unfold select_closest at h
    simp only [List.foldl_cons] at h
    rcases select_closest_fold l a t h with ⟨rfl, hmin⟩ | ⟨k, hget, hlt, hpre, hall⟩
    · refine ⟨0, rfl, fun j u hj _ => absurd hj (Nat.not_lt_zero j), ?_⟩
      intro u hu
      rcases List.mem_cons.1 hu with rfl | hul
      · exact le_rfl
      · exact hmin u hul
    · refine ⟨k + 1, by simpa using hget, ?_, ?_⟩
      · intro j u hj hgu
        cases j with
        | zero =>
          rw [List.get?_cons_zero] at hgu
          injection hgu with hgu
          subst hgu
          exact hlt
        | succ j0 =>
          rw [List.get?_cons_succ] at hgu
          exact hpre j0 u (by omega) hgu
      · intro u hu
        rcases List.mem_cons.1 hu with rfl | hul
        · exact le_of_lt hlt
        · exact hall u hul

theorem select_closest_isSome {ts : List Target} (h : ts ≠ []) :
    ∃ t, select_closest ts = some t := by
  cases ts with
  | nil => exact absurd rfl h
  | cons a l =>
    unfold select_closest
    simp only [List.foldl_cons]
    clear h
    induction l generalizing a with
    | nil => exact ⟨a, rfl⟩
    | cons b l ih =>
      simp only [List.foldl_cons]
      by_cases hb : b.r_mm < a.r_mm
      · rw [if_pos hb]
        exact ih b
      · rw [if_neg hb]
        exact ih a

theorem select_ties_by_position {bs : List Target} {t : Target} {k : Nat}
    (hget : bs.get? k = some t)
    (hpre : ∀ j u, j < k → bs.get? j = some u → t.r_mm < u.r_mm)
    (hpair : List.Pairwise (fun t1 t2 => t1.id ≤ t2.id) bs) :
    ∀ u ∈ bs, u.r_mm = t.r_mm → t.id ≤ u.id := by
  intro u hu hr
  obtain ⟨j, hj⟩ := List.mem_iff_get?.1 hu
  rcases lt_trichotomy j k with hjk | rfl | hjk
  · have := hpre j u hjk hj
    omega
  · rw [hget] at hj
    injection hj with hj
    subst hj
    exact le_rfl
  · obtain ⟨hk', hkeq⟩ := List.get?_eq_some.1 hget
    obtain ⟨hj', hjeq⟩ := List.get?_eq_some.1 hj
    rw [List.pairwise_iff_get] at hpair
    have := hpair ⟨k, hk'⟩ ⟨j, hj'⟩ hjk
    rw [hkeq, hjeq] at this
    exact this

theorem mem_toList_parse_slot {frame : List Nat} {k : Nat} {t : Target}
    (h : t ∈ (parse_slot frame k).toList) : t.id = k + 1 := by
  cases hp : parse_slot frame k with
  | none => rw [hp] at h; cases h
  | some u =>
    rw [hp] at h
    simp at h
    subst h
    exact (parse_slot_fields hp).1

theorem parse_targets_ids_pairwise (frame : List Nat) :
    List.Pairwise (fun t1 t2 => t1.id ≤ t2.id) (parse_targets frame) := by
  unfold parse_targets
  rw [List.pairwise_append]
  refine ⟨?_, ?_, ?_⟩
  · rw [List.pairwise_append]
    refine ⟨?_, ?_, ?_⟩
    · cases parse_slot frame 0 <;> simp
    · cases parse_slot frame 1 <;> simp
    · intro a ha b hb
      rw [mem_toList_parse_slot ha, mem_toList_parse_slot hb]
      omega
  · cases parse_slot frame 2 <;> simp
  · intro a ha b hb
    rcases List.mem_append.1 ha with h1 | h2
    · rw [mem_toList_parse_slot h1, mem_toList_parse_slot hb]
      omega
    · rw [mem_toList_parse_slot h2, mem_toList_parse_slot hb]
      omega

theorem update_radar_data_idle (s : RadarDataChar)
    (h : s.notifying = false ∨ s.radar_queue = none) :
    update_radar_data s = (s, []) := by
  unfold update_radar_data
  cases hq : s.radar_queue with
  | none => rfl
  | some q =>
    dsimp only
    rcases h with hn | hn
    · rw [hn]
      rw [if_pos rfl]
    · rw [hq] at hn
      cases hn

theorem update_radar_data_queue_drained (q : List (List Target)) (v : List Nat) :
    (update_radar_data ⟨true, some q, v⟩).1.radar_queue = some [] := by
  unfold update_radar_data
  dsimp only
  cases hl : q.getLast? with
  | none => rfl
  | some bs =>
    by_cases hbs : bs = []
    · subst hbs
      rfl
    · rw [if_neg (show ¬ (true = false) by decide)]
      dsimp only
      rw [if_neg hbs]
      cases hs : select_closest bs with
      | none => rfl
      | some t => rfl

theorem update_radar_data_empty_queue (q : List (List Target)) (v : List Nat)
    (h : q.getLast? = none) :
    update_radar_data ⟨true, some q, v⟩ = (⟨true, some [], v⟩, []) := by
  unfold update_radar_data
  dsimp only
  rw [h]
  rfl

theorem update_radar_data_active (q : List (List Target)) (v : List Nat)
    (bs : List Target) (t : Target) (hlast : q.getLast? = some bs)
    (hsel : select_closest bs = some t) :
    update_radar_data ⟨true, some q, v⟩ =
      (⟨true, some [], pack_radar_data t⟩, [pack_radar_data t]) := by
  have hbs : bs ≠ [] := by
    intro hnil
    subst hnil
    rw [select_closest_nil] at hsel
    cases hsel
  unfold update_radar_data
  dsimp only
  rw [hlast]
  dsimp only
  rw [if_neg hbs, hsel]
  rfl

/-- C7 (confirmed). While notifying with a queue attached, a publish tick
drains all queued batches keeping only the last one; from a non-empty last
batch it publishes exactly one packet — the encoding of the target with the
smallest `r_mm`, ties broken by earliest position, which for `parse_targets`
output (slot ids pairwise ascending, last conjunct) means ascending slot
index; an empty queue publishes nothing and leaves the stored value. -/
theorem publish_tick_selects_closest :
    ∀ (q : List (List Target)) (v : List Nat),
      ((update_radar_data ⟨true, some q, v⟩).1.radar_queue = some []) ∧
      (q.getLast? = none →
        update_radar_data ⟨true, some q, v⟩ = (⟨true, some [], v⟩, [])) ∧
      (∀ bs, q.getLast? = some bs → bs ≠ [] →
        ∃ t, select_closest bs = some t ∧
          update_radar_data ⟨true, some q, v⟩ =
            (⟨true, some [], pack_radar_data t⟩, [pack_radar_data t]) ∧
          (∃ k, bs.get? k = some t ∧
            ∀ j u, j < k → bs.get? j = some u → t.r_mm < u.r_mm) ∧
          (∀ u ∈ bs, t.r_mm ≤ u.r_mm) ∧
          (List.Pairwise (fun t1 t2 => t1.id ≤ t2.id) bs →
            ∀ u ∈ bs, u.r_mm = t.r_mm → t.id ≤ u.id)) ∧
      (∀ frame : List Nat,
        List.Pairwise (fun t1 t2 => t1.id ≤ t2.id) (parse_targets frame)) := by
  intro q v
  refine ⟨update_radar_data_queue_drained q v,
    update_radar_data_empty_queue q v, ?_, parse_targets_ids_pairwise⟩
  intro bs hlast hbs
  obtain ⟨t, hsel⟩ := select_closest_isSome hbs
  obtain ⟨k, hget, hpre, hall⟩ := select_closest_spec hsel
  exact ⟨t, hsel, update_radar_data_active q v bs t hlast hsel,
    ⟨k, hget, hpre⟩, hall,
    fun hpair => select_ties_by_position hget hpre hpair⟩

theorem publish_tick_selects_closest_witness :
    update_radar_data ⟨true, some [[⟨1, 0, 0, 5, 0, 0⟩]], []⟩ =
      (⟨true, some [], pack_radar_data ⟨1, 0, 0, 5, 0, 0⟩⟩,
        [pack_radar_data ⟨1, 0, 0, 5, 0, 0⟩]) := by
  obtain ⟨t, hsel, heq, -, -, -⟩ :=
    (publish_tick_selects_closest [[⟨1, 0, 0, 5, 0, 0⟩]] []).2.2.1
      [⟨1, 0, 0, 5, 0, 0⟩] rfl (by decide)
  rw [show t = ⟨1, 0, 0, 5, 0, 0⟩ from by
    have hs : select_closest [(⟨1, 0, 0, 5, 0, 0⟩ : Target)] =
        some ⟨1, 0, 0, 5, 0, 0⟩ := rfl
    rw [hs] at hsel
    injection hsel with h
    exact h.symm] at heq
  exact heq

/-- C10 (confirmed). A publish tick while not notifying, or before a queue
is attached, returns immediately: queue contents and stored value are
unchanged and nothing is published; idle ticks do not drain, so after
re-subscribing the first tick publishes the closest target of the last
batch that was enqueued while idle. -/
theorem idle_tick_preserves_state :
    (∀ s : RadarDataChar, s.notifying = false ∨ s.radar_queue = none →
      update_radar_data s = (s, [])) ∧
    (∀ (q : List (List Target)) (v : List Nat) (bs : List Target) (t : Target),
      q.getLast? = some bs → select_closest bs = some t →
      update_radar_data (start_notify ⟨false, some q, v⟩) =
        (⟨true, some [], pack_radar_data t⟩, [pack_radar_data t])) := by
  refine ⟨update_radar_data_idle, ?_⟩
  intro q v bs t hlast hsel
  have hsn : start_notify ⟨false, some q, v⟩ = ⟨true, some q, v⟩ := rfl
  rw [hsn]
  exact update_radar_data_active q v bs t hlast hsel

theorem idle_tick_preserves_state_witness :
    update_radar_data ⟨false, some [[⟨1, 0, 0, 5, 0, 0⟩]], [7]⟩ =
      (⟨false, some [[⟨1, 0, 0, 5, 0, 0⟩]], [7]⟩, []) :=
  idle_tick_preserves_state.1 ⟨false, some [[⟨1, 0, 0, 5, 0, 0⟩]], [7]⟩
    (Or.inl rfl)
